import Mathlib

/-!
# Verification of the committer branch-alignment decision engine

A shallow embedding of the branch-name synthesis, alignment-classification
response handling, decision-workflow control flow and configuration commands
of the `committer` CLI (`src/branch.rs`, `src/main.rs`, `src/ui.rs`,
`src/cli.rs`, `src/config.rs`), together with proofs and refutations of the
specification's claims about them.

Strings are modelled as `List Char` (the sequence of Unicode scalar values of
a Rust `String`).  Rust character classes (`char::is_whitespace`,
`char::is_alphanumeric`, lowercasing) are modelled exactly on the Basic Latin
and Latin-1 blocks, which cover every concrete input considered in this file;
universally quantified theorems that depend on the character tables carry an
explicit ASCII hypothesis.
-/

/-- The character sequence of a string literal. -/
def chars (s : String) : List Char := s.data

/-- Models Rust `char::is_whitespace`: the Unicode `White_Space` property.
The full (finite) Unicode list of white-space scalar values. -/
def rustIsWhitespace (c : Char) : Bool :=
  [ '\u0009', '\u000a', '\u000b', '\u000c', '\u000d', '\u0020',
    '\u0085', '\u00a0', '\u1680',
    '\u2000', '\u2001', '\u2002', '\u2003', '\u2004', '\u2005',
    '\u2006', '\u2007', '\u2008', '\u2009', '\u200a',
    '\u2028', '\u2029', '\u202f', '\u205f', '\u3000' ].contains c

/-- Models Rust `char::is_alphanumeric` (Unicode `Alphabetic` or `Nd`).
Exact on the Basic Latin and Latin-1 blocks (code points up to `0xFF`):
ASCII letters and digits, `ª` `µ` `º`, and the Latin-1 letters `À`–`ÿ`
except `×` and `÷`.  Code points above `0xFF` are outside the modelled
character set and are mapped to `false`; no input considered in this file
contains such a character. -/
def rustIsAlphanumeric (c : Char) : Bool :=
  decide (0x61 ≤ c.toNat ∧ c.toNat ≤ 0x7a) ||
  decide (0x41 ≤ c.toNat ∧ c.toNat ≤ 0x5a) ||
  decide (0x30 ≤ c.toNat ∧ c.toNat ≤ 0x39) ||
  decide (0xc0 ≤ c.toNat ∧ c.toNat ≤ 0xff ∧ c.toNat ≠ 0xd7 ∧ c.toNat ≠ 0xf7) ||
  decide (c.toNat = 0xaa ∨ c.toNat = 0xb5 ∨ c.toNat = 0xba)

/-- Models Rust lowercasing of a single character (as performed by
`str::to_lowercase`).  Exact on the Basic Latin and Latin-1 blocks:
`A`–`Z` and `À`–`Þ` (except `×`) map 32 code points up; everything else in
those blocks is fixed.  Code points above `0xFF` (where `to_lowercase` may
even expand to several characters) are outside the modelled set and are
mapped to themselves. -/
def rustToLowerChar (c : Char) : Char :=
  if 0x41 ≤ c.toNat ∧ c.toNat ≤ 0x5a then Char.ofNat (c.toNat + 0x20)
  else if 0xc0 ≤ c.toNat ∧ c.toNat ≤ 0xde ∧ c.toNat ≠ 0xd7 then Char.ofNat (c.toNat + 0x20)
  else c

/-- Models Rust `str::to_lowercase` on the modelled character blocks. -/
def rustToLowercase (l : List Char) : List Char := l.map rustToLowerChar

/-- Models Rust `str::split_whitespace`: maximal runs of
non-whitespace characters, with whitespace-separated words accumulated
left to right (`acc` holds the current word reversed). -/
def splitWhitespaceAux : List Char → List Char → List (List Char)
  | [], acc => if acc.isEmpty then [] else [acc.reverse]
  | c :: rest, acc =>
    if rustIsWhitespace c then
      if acc.isEmpty then splitWhitespaceAux rest []
      else acc.reverse :: splitWhitespaceAux rest []
    else splitWhitespaceAux rest (c :: acc)

/-- Models Rust `str::split_whitespace`. -/
def splitWhitespace (l : List Char) : List (List Char) := splitWhitespaceAux l []

/-- Rust `Vec::join("-")`: words joined by single hyphens. -/
def joinHyphen : List (List Char) → List Char
  | [] => []
  | [w] => w
  | w :: v :: ws => w ++ '-' :: joinHyphen (v :: ws)

/-- `FILLER_WORDS` from `src/branch.rs` lines 24–56. -/
def fillerWords : List (List Char) :=
  [ chars "add", chars "update", chars "fix", chars "remove", chars "delete",
    chars "change", chars "modify", chars "implement", chars "create",
    chars "make", chars "set", chars "get", chars "use", chars "handle",
    chars "support", chars "enable", chars "disable", chars "allow",
    chars "improve", chars "enhance", chars "the", chars "a", chars "an",
    chars "to", chars "for", chars "of", chars "in", chars "on",
    chars "with", chars "and", chars "or" ]

/-- The character filter of `slugify`: keep alphanumerics and hyphens
(`c.is_alphanumeric() || *c == '-'`, `src/branch.rs` lines 93 and 101). -/
def keepChar (c : Char) : Bool := rustIsAlphanumeric c || c = '-'

/-- `slugify` from `src/branch.rs` lines 80–103: split on whitespace, drop
filler words (compared lowercased), keep at most `maxWords` words; if that
leaves nothing, fall back to the first `maxWords` unfiltered words; join
with `-`, lowercase, and strip every character that is not alphanumeric
or `-`. -/
def slugify (text : List Char) (maxWords : Nat) : List Char :=
  let words :=
    ((splitWhitespace text).filter
        (fun w => !(fillerWords.contains (rustToLowercase w)))).take maxWords
  if words.isEmpty then
    let fallback := (splitWhitespace text).take maxWords
    (rustToLowercase (joinHyphen fallback)).filter keepChar
  else
    (rustToLowercase (joinHyphen words)).filter keepChar

/-- `ParsedHeader` (spec §3): the result of matching a first line against
the conventional-commit grammar `^([a-z]+)(?:\(([^)]+)\))?:\s*(.+)$`. -/
structure ParsedHeader where
  commit_type : List Char
  scope : Option (List Char)
  description : List Char
deriving DecidableEq

/-- Is `c` an ASCII lowercase letter (the regex class `[a-z]`)? -/
def isLowerAlpha (c : Char) : Bool := decide (0x61 ≤ c.toNat ∧ c.toNat ≤ 0x7a)

/-- Matches the leading `([a-z]+)` of the regex on `src/branch.rs` line 112
and returns it with the remainder of the line.  Maximal munch is equivalent
to the regex's backtracking here: a shorter match of `[a-z]+` would have to
be followed by `(` or `:`, but the next character after a shorter match is a
lowercase letter. -/
def parseTypeRest (line : List Char) : Option (List Char × List Char) :=
  let ty := line.takeWhile isLowerAlpha
  if ty.isEmpty then none else some (ty, line.drop ty.length)

/-- Matches the optional scope group `(?:\(([^)]+)\))?`.  When the line
continues with `(` but the group cannot complete (`()` or no closing
parenthesis), the regex as a whole fails, because the fallback without the
optional group would require `:` where `(` stands. -/
def parseScopeRest : List Char → Option (Option (List Char) × List Char)
  | [] => some (none, [])
  | a :: after =>
    if a = '(' then
      let inner := after.takeWhile (fun c => !(c = ')'))
      if inner.isEmpty then none
      else
        match after.drop inner.length with
        | [] => none
        | b :: rest => if b = ')' then some (some inner, rest) else none
    else some (none, a :: after)

/-- Matches `:\s*(.+)$`.  `\s*` is greedy but backtracks one character when
the remainder after the colon is non-empty whitespace, so that `(.+)` can
still match: the description is then the final character. -/
def parseColonDesc : List Char → Option (List Char)
  | [] => none
  | a :: after =>
    if a = ':' then
      let d := after.dropWhile rustIsWhitespace
      if d.isEmpty then
        match after.getLast? with
        | some c => some [c]
        | none => none
      else some d
    else none

/-- The conventional-commit regex match from `src/branch.rs` lines 112–116:
`commit_type` = group 1, `scope` = group 2 if present, `description` =
group 3. -/
def parseConventional (line : List Char) : Option ParsedHeader :=
  match parseTypeRest line with
  | none => none
  | some (ty, r1) =>
    match parseScopeRest r1 with
    | none => none
    | some (scope, r2) =>
      match parseColonDesc r2 with
      | none => none
      | some d => some ⟨ty, scope, d⟩

/-- `commit_message.lines().next().unwrap_or(commit_message)`
(`src/branch.rs` line 110): the text before the first `\n`, with one
trailing `\r` stripped when the message does contain a `\n` (Rust's
`lines()` only treats `\r\n` as a terminator; a bare trailing `\r`
without `\n` is kept). -/
def firstLine (msg : List Char) : List Char :=
  let pre := msg.takeWhile (fun c => !(c = '\n'))
  if msg.contains '\n' then
    if pre.getLast? = some '\r' then pre.dropLast else pre
  else pre

/-- `generate_fallback_branch` from `src/branch.rs` lines 109–127: parse the
first line as a conventional commit; on a match produce
`{type}/{scope}-{slug}` or `{type}/{slug}` (the scope is interpolated
verbatim); otherwise `feat/{slug}` of the whole first line.  The slug always
uses `max_words = 3`. -/
def generate_fallback_branch (commit_message : List Char) : List Char :=
  let fl := firstLine commit_message
  match parseConventional fl with
  | some h =>
    let descSlug := slugify h.description 3
    match h.scope with
    | some s => h.commit_type ++ '/' :: (s ++ '-' :: descSlug)
    | none => h.commit_type ++ '/' :: descSlug
  | none => chars "feat/" ++ slugify fl 3

/-- `PROTECTED_BRANCHES` from `src/branch.rs` line 22. -/
def protectedBranches : List (List Char) :=
  [ chars "main", chars "master", chars "develop", chars "dev",
    chars "staging", chars "production" ]

/-- `BranchAnalysis` from `src/branch.rs` lines 59–67 (the spec's
`AlignmentVerdict`). -/
structure BranchAnalysis where
  «matches» : Bool
  reason : List Char
  suggested_branch : Option (List Char)
deriving DecidableEq

/-- `BranchAction` from `src/branch.rs` lines 70–75: the user's choice at a
branch prompt. -/
inductive BranchAction where
  | Create (name : List Char)
  | Skip
deriving DecidableEq

/-- Observable outcome of the pre-flight alignment section of `main`
(`src/main.rs` lines 201–260): which suggestion (if any) was displayed or
acted on, which branch (if any) was created and switched to, and whether
`branch_already_handled` was set. -/
structure AlignOutcome where
  suggestionShown : Option (List Char)
  branchCreated : Option (List Char)
  branchHandled : Bool
deriving DecidableEq

/-- The verdict-handling logic of `main` (`src/main.rs` lines 231–259),
given a successfully parsed `BranchAnalysis`.  `currentBranch` is used by
the source only inside display strings; the taken path depends solely on
`analysis.«matches»`.  On a mismatch the suggestion is
`analysis.suggested_branch.unwrap_or_else(|| generate_fallback_branch(&message))`;
with `--auto-branch` or `--yes` that branch is created immediately,
otherwise the interactive prompt decides, and in every mismatch case
`branch_already_handled` is set. -/
def alignmentPhase (autoBranch cliYes : Bool) (currentBranch message : List Char)
    (analysis : BranchAnalysis) (userAction : BranchAction) : AlignOutcome :=
  if !analysis.«matches» then
    let suggested := analysis.suggested_branch.getD (generate_fallback_branch message)
    if autoBranch || cliYes then
      ⟨some suggested, some suggested, true⟩
    else
      match userAction with
      | BranchAction.Create name => ⟨some suggested, some name, true⟩
      | BranchAction.Skip => ⟨some suggested, none, true⟩
  else ⟨none, none, false⟩

/-- The alignment-checked section of `main` including its fallibility
(`src/main.rs` lines 214–259): the `?` on `analyze_branch_alignment` makes
any classifier error (`ServiceError` or `MalformedResponseError`, both
`Box<dyn Error>` strings here) abort the run; only a successful analysis
reaches the verdict handling. -/
def runAlignmentCheck (autoBranch cliYes : Bool) (currentBranch message : List Char)
    (classifierResult : Except (List Char) BranchAnalysis)
    (userAction : BranchAction) : Except (List Char) AlignOutcome :=
  match classifierResult with
  | Except.error e => Except.error e
  | Except.ok analysis =>
    Except.ok (alignmentPhase autoBranch cliYes currentBranch message analysis userAction)

/-- The branch-name choice of the interactive create-branch sub-flow
(`src/main.rs` lines 296–306): use the completion-service suggestion when
the call succeeds, otherwise silently fall back to
`generate_fallback_branch`. -/
def branchSuggestionOutcome (serviceResult : Except (List Char) (List Char))
    (message : List Char) : List Char :=
  match serviceResult with
  | Except.ok name => name
  | Except.error _ => generate_fallback_branch message

/-- Rust `str::strip_prefix`: `some` of the remainder when `p` is a prefix
of `l`, otherwise `none`. -/
def stripPrefixL : List Char → List Char → Option (List Char)
  | [], l => some l
  | _ :: _, [] => none
  | p :: ps, c :: cs => if p = c then stripPrefixL ps cs else none

/-- Rust `str::strip_suffix`, via the reversed lists. -/
def stripSuffixL (p l : List Char) : Option (List Char) :=
  (stripPrefixL p.reverse l.reverse).map List.reverse

/-- `strip_prefix(p).unwrap_or(content)` (`src/branch.rs` lines 204–205). -/
def stripPrefixOr (p l : List Char) : List Char := (stripPrefixL p l).getD l

/-- `strip_suffix(p).unwrap_or(content)` (`src/branch.rs` line 206). -/
def stripSuffixOr (p l : List Char) : List Char := (stripSuffixL p l).getD l

/-- Rust `str::trim_start` restricted to the modelled whitespace set. -/
def trimLeft (l : List Char) : List Char := l.dropWhile rustIsWhitespace

/-- Rust `str::trim_end` restricted to the modelled whitespace set. -/
def trimRight (l : List Char) : List Char :=
  (l.reverse.dropWhile rustIsWhitespace).reverse

/-- Rust `str::trim`. -/
def rustTrim (l : List Char) : List Char := trimLeft (trimRight l)

/-- The response post-processing of `analyze_branch_alignment`
(`src/branch.rs` lines 203–207): trim, strip a leading ```` ```json ````,
then a leading ```` ``` ````, then a trailing ```` ``` ````, trim again. -/
def stripFence (content : List Char) : List Char :=
  rustTrim
    (stripSuffixOr (chars "```")
      (stripPrefixOr (chars "```")
        (stripPrefixOr (chars "```json") (rustTrim content))))

/-- JSON values, as parsed by the external `serde_json` crate.  Numbers keep
their lexeme: no claim in this file depends on numeric values. -/
inductive Json where
  | null
  | bool (b : Bool)
  | num (lexeme : List Char)
  | str (s : List Char)
  | arr (items : List Json)
  | obj (fields : List (List Char × Json))

/-- JSON insignificant whitespace (RFC 8259, as accepted by `serde_json`). -/
def jsonWs (c : Char) : Bool := c = ' ' || c = '\t' || c = '\n' || c = '\r'

/-- Skip insignificant whitespace. -/
def skipWs (l : List Char) : List Char := l.dropWhile jsonWs

/-- Value of a hexadecimal digit. -/
def hexVal (c : Char) : Option Nat :=
  if 0x30 ≤ c.toNat ∧ c.toNat ≤ 0x39 then some (c.toNat - 0x30)
  else if 0x61 ≤ c.toNat ∧ c.toNat ≤ 0x66 then some (c.toNat - 0x61 + 10)
  else if 0x41 ≤ c.toNat ∧ c.toNat ≤ 0x46 then some (c.toNat - 0x41 + 10)
  else none

/-- Characters allowed in a JSON number lexeme. -/
def isNumChar (c : Char) : Bool :=
  c.isDigit || c = '-' || c = '+' || c = '.' || c = 'e' || c = 'E'

/-- Parse the body of a JSON string after its opening quote, handling the
escape sequences `serde_json` accepts (`\uXXXX` excluding lone
surrogates).  Fuelled recursion; the fuel is at least the input length at
every call site, so it never runs out on the inputs evaluated here. -/
def parseJsonString : Nat → List Char → Option (List Char × List Char)
  | 0, _ => none
  | _ + 1, [] => none
  | fuel + 1, c :: rest =>
    if c = '"' then some ([], rest)
    else if c = '\\' then
      match rest with
      | [] => none
      | e :: rest2 =>
        let esc : Option (Char × List Char) :=
          if e = '"' then some ('"', rest2)
          else if e = '\\' then some ('\\', rest2)
          else if e = '/' then some ('/', rest2)
          else if e = 'n' then some ('\n', rest2)
          else if e = 't' then some ('\t', rest2)
          else if e = 'r' then some ('\r', rest2)
          else if e = 'b' then some ('\u0008', rest2)
          else if e = 'f' then some ('\u000c', rest2)
          else if e = 'u' then
            match rest2 with
            | h1 :: h2 :: h3 :: h4 :: rest3 =>
              match hexVal h1, hexVal h2, hexVal h3, hexVal h4 with
              | some a, some b, some cc, some d =>
                let code := ((a * 16 + b) * 16 + cc) * 16 + d
                if 0xd800 ≤ code ∧ code ≤ 0xdfff then none
                else some (Char.ofNat code, rest3)
              | _, _, _, _ => none
            | _ => none
          else none
        match esc with
        | some (ch, r) => (parseJsonString fuel r).map (fun p => (ch :: p.1, p.2))
        | none => none
    else if c.toNat < 0x20 then none
    else (parseJsonString fuel rest).map (fun p => (c :: p.1, p.2))

mutual

/-- Recursive-descent JSON value parser modelling `serde_json`'s grammar
(fuelled; fuel is chosen at least the input length plus one). -/
def parseValue : Nat → List Char → Option (Json × List Char)
  | 0, _ => none
  | fuel + 1, l =>
    match skipWs l with
    | [] => none
    | c :: rest =>
      if c = 'n' then
        (stripPrefixL (chars "ull") rest).map (fun r => (Json.null, r))
      else if c = 't' then
        (stripPrefixL (chars "rue") rest).map (fun r => (Json.bool true, r))
      else if c = 'f' then
        (stripPrefixL (chars "alse") rest).map (fun r => (Json.bool false, r))
      else if c = '"' then
        (parseJsonString (fuel + 1) rest).map (fun p => (Json.str p.1, p.2))
      else if c = '[' then
        match skipWs rest with
        | ']' :: r => some (Json.arr [], r)
        | r => (parseItems fuel r).map (fun p => (Json.arr p.1, p.2))
      else if c = '\x7b' then
        match skipWs rest with
        | '\x7d' :: r => some (Json.obj [], r)
        | r => (parseMembers fuel r).map (fun p => (Json.obj p.1, p.2))
      else if c.isDigit || c = '-' then
        let lex := (c :: rest).takeWhile isNumChar
        some (Json.num lex, (c :: rest).drop lex.length)
      else none

/-- Comma-separated JSON array items, ended by `]`. -/
def parseItems : Nat → List Char → Option (List Json × List Char)
  | 0, _ => none
  | fuel + 1, l =>
    match parseValue fuel l with
    | none => none
    | some (v, r) =>
      match skipWs r with
      | ',' :: r2 => (parseItems fuel r2).map (fun p => (v :: p.1, p.2))
      | ']' :: r2 => some ([v], r2)
      | _ => none

/-- Comma-separated JSON object members, ended by `}`. -/
def parseMembers : Nat → List Char → Option (List (List Char × Json) × List Char)
  | 0, _ => none
  | fuel + 1, l =>
    match skipWs l with
    | '"' :: r =>
      match parseJsonString (fuel + 1) r with
      | none => none
      | some (key, r2) =>
        match skipWs r2 with
        | ':' :: r3 =>
          match parseValue fuel r3 with
          | none => none
          | some (v, r4) =>
            match skipWs r4 with
            | ',' :: r5 => (parseMembers fuel r5).map (fun p => ((key, v) :: p.1, p.2))
            | '\x7d' :: r5 => some ([(key, v)], r5)
            | _ => none
        | _ => none
    | _ => none

end

/-- `serde_json::from_str`'s top level: one JSON value, then only
insignificant whitespace ("trailing characters" is an error). -/
def parseJsonText (l : List Char) : Option Json :=
  match parseValue (l.length + 1) l with
  | some (v, rest) => if skipWs rest = [] then some v else none
  | none => none

/-- Number of fields of `fields` with key `k`. -/
def countKey (fields : List (List Char × Json)) (k : List Char) : Nat :=
  (fields.filter (fun f => f.1 = k)).length

/-- First field value for key `k`. -/
def findKey (fields : List (List Char × Json)) (k : List Char) : Option Json :=
  (fields.find? (fun f => f.1 = k)).map (fun f => f.2)

/-- The derived `Deserialize` for `BranchAnalysis`: a JSON object whose
`matches` is a boolean and `reason` a string (each exactly once; a
duplicated field is an error), with `suggested_branch` an optional string
(`null` and absent both give `None`); unknown fields are ignored (serde's
default), any other shape is an error. -/
def deserializeBranchAnalysis (j : Json) : Option BranchAnalysis :=
  match j with
  | Json.obj fields =>
    if countKey fields (chars "matches") = 1 ∧ countKey fields (chars "reason") = 1 ∧
        countKey fields (chars "suggested_branch") ≤ 1 then
      match findKey fields (chars "matches"), findKey fields (chars "reason") with
      | some (Json.bool b), some (Json.str r) =>
        match findKey fields (chars "suggested_branch") with
        | none => some ⟨b, r, none⟩
        | some Json.null => some ⟨b, r, none⟩
        | some (Json.str s) => some ⟨b, r, some s⟩
        | some _ => none
      | _, _ => none
    else none
  | _ => none

/-- The parsing stage of `analyze_branch_alignment` (`src/branch.rs` lines
203–210): fence stripping followed by strict JSON deserialization; `none`
models the `Failed to parse branch analysis` error. -/
def parseBranchAnalysisResponse (content : List Char) : Option BranchAnalysis :=
  (parseJsonText (stripFence content)).bind deserializeBranchAnalysis

/-- Where the review loop of `main` (`src/main.rs` lines 273–341) is
currently reading input: the `prompt_commit` menu, the
`prompt_branch_action` menu of the create-branch sub-flow, or the
branch-name line read after choosing `e` there. -/
inductive PromptMode where
  | reviewing
  | branching
  | branchEditing
deriving DecidableEq

/-- State of the review loop of `main` (`src/main.rs` lines 270–341):
the current prompt, the `show_branch_option` flag, how many branches have
been created by the loop, and whether the loop has exited (commit, cancel,
or auto-commit after branch creation). -/
structure ReviewLoopState where
  mode : PromptMode
  showBranchOption : Bool
  branchesCreated : Nat
  finished : Bool
deriving DecidableEq

/-- `input.trim().to_lowercase()` as applied to every prompt answer in
`src/ui.rs` (lines 110 and 174). -/
def normalizeInput (l : List Char) : List Char := rustToLowercase (rustTrim l)

/-- One consumed input line of the review loop.  In `reviewing` mode this is
`prompt_commit` (`src/ui.rs` lines 167–193): `y`/`yes` commits and exits,
`n`/`no` cancels and exits, `e`/`edit` opens `$EDITOR` (consuming no further
stdin) and re-prompts, `b`/`branch` is accepted only while
`show_branch_option` holds and enters the create-branch sub-flow
(`src/main.rs` lines 284–339); anything else re-prompts.  In `branching`
mode this is `prompt_branch_action` (`src/ui.rs` lines 103–129): `y` runs
`create_and_switch_branch`, returns to the review prompt with the branch
option disabled, and exits directly when `commit_after_branch` is
configured (`src/main.rs` lines 328–338); `n` returns with the option
disabled; `e` reads one further line as the edited branch name and
re-prompts.  Edited message and branch-name text is not tracked: it never
influences the control flow modelled here. -/
def reviewStep (commitAfterBranch : Bool) (st : ReviewLoopState)
    (input : List Char) : ReviewLoopState :=
  if st.finished then st
  else
    match st.mode with
    | PromptMode.reviewing =>
      let i := normalizeInput input
      if i = chars "y" ∨ i = chars "yes" then { st with finished := true }
      else if i = chars "n" ∨ i = chars "no" then { st with finished := true }
      else if i = chars "e" ∨ i = chars "edit" then st
      else if (i = chars "b" ∨ i = chars "branch") ∧ st.showBranchOption then
        { st with mode := PromptMode.branching }
      else st
    | PromptMode.branching =>
      let i := normalizeInput input
      if i = chars "y" ∨ i = chars "yes" then
        { mode := PromptMode.reviewing, showBranchOption := false,
          branchesCreated := st.branchesCreated + 1, finished := commitAfterBranch }
      else if i = chars "n" ∨ i = chars "no" then
        { st with mode := PromptMode.reviewing, showBranchOption := false }
      else if i = chars "e" ∨ i = chars "edit" then
        { st with mode := PromptMode.branchEditing }
      else st
    | PromptMode.branchEditing => { st with mode := PromptMode.branching }

/-- The review loop run on a stream of input lines, starting from the
review prompt with `show_branch_option = !branch_already_handled`
(`src/main.rs` line 270). -/
def runReviewLoop (commitAfterBranch : Bool) (showBranch0 : Bool)
    (inputs : List (List Char)) : ReviewLoopState :=
  inputs.foldl (reviewStep commitAfterBranch)
    ⟨PromptMode.reviewing, showBranch0, 0, false⟩

/-- Total number of `create_and_switch_branch` calls a full run of `main`
performs, as a function of the CLI flags, configuration, classifier result,
and user interactions (`src/main.rs` lines 199–345): the pre-flight
alignment section creates at most the one branch recorded in its outcome
(and a classifier error aborts the run via `?` before any creation); the
`--dry-run` and auto-commit paths skip the review loop; otherwise the loop
runs with the branch option offered only when the alignment section did not
already handle branching. -/
def totalBranchesInRun (branchFlag autoBranch cliYes autoCommit dryRun
    commitAfterBranch : Bool) (currentBranch message : List Char)
    (classifierResult : Except (List Char) BranchAnalysis)
    (alignAction : BranchAction) (loopInputs : List (List Char)) : Nat :=
  if branchFlag ∨ autoBranch then
    match runAlignmentCheck autoBranch cliYes currentBranch message
        classifierResult alignAction with
    | Except.error _ => 0
    | Except.ok outcome =>
      let phase := if outcome.branchCreated.isSome then 1 else 0
      if dryRun then phase
      else if cliYes ∨ autoCommit then phase
      else phase + (runReviewLoop commitAfterBranch (!outcome.branchHandled)
          loopInputs).branchesCreated
  else
    if dryRun then 0
    else if cliYes ∨ autoCommit then 0
    else (runReviewLoop commitAfterBranch true loopInputs).branchesCreated

/-- `Config` from `src/config.rs` lines 29–46. -/
structure Config where
  auto_commit : Bool
  commit_after_branch : Bool
  model : List Char
  verbose : Bool
deriving DecidableEq

/-- Rust `str::parse::<bool>()`: exactly `"true"` / `"false"`, nothing
else (no trimming, no case folding). -/
def rustParseBool (s : List Char) : Option Bool :=
  if s = chars "true" then some true
  else if s = chars "false" then some false
  else none

/-- Result of one `config` subcommand (`src/main.rs` lines 92–114): the
configuration passed to `save_config` and whether any error was reported
for the given value.  The boolean setters have no error branch for the
value at all: `value.parse().unwrap_or(false)` silently maps anything that
is not exactly `"true"`/`"false"` to `false`, and the success message is
printed unconditionally. -/
structure ConfigCmdResult where
  newConfig : Config
  errorReported : Bool
deriving DecidableEq

/-- `ConfigAction::AutoCommit` handling (`src/main.rs` lines 92–97). -/
def configAutoCommitCmd (c : Config) (value : List Char) : ConfigCmdResult :=
  ⟨{ c with auto_commit := (rustParseBool value).getD false }, false⟩

/-- `ConfigAction::CommitAfterBranch` handling (`src/main.rs` lines
98–103). -/
def configCommitAfterBranchCmd (c : Config) (value : List Char) : ConfigCmdResult :=
  ⟨{ c with commit_after_branch := (rustParseBool value).getD false }, false⟩

/-- `ConfigAction::Verbose` handling (`src/main.rs` lines 109–114). -/
def configVerboseCmd (c : Config) (value : List Char) : ConfigCmdResult :=
  ⟨{ c with verbose := (rustParseBool value).getD false }, false⟩

/-- Is `c` an ASCII letter or digit? -/
def isAsciiAlnum (c : Char) : Bool :=
  decide (0x61 ≤ c.toNat ∧ c.toNat ≤ 0x7a) ||
  decide (0x41 ≤ c.toNat ∧ c.toNat ≤ 0x5a) ||
  decide (0x30 ≤ c.toNat ∧ c.toNat ≤ 0x39)

/-- Invariant of the review loop: at most one branch has been created, and
none before a branch decision (while the branch option is still shown, or
while the create-branch sub-flow is still open). -/
def loopInv (st : ReviewLoopState) : Prop :=
  st.branchesCreated ≤ 1 ∧
  ((st.showBranchOption = true ∨ st.mode ≠ PromptMode.reviewing) →
    st.branchesCreated = 0)

/-- With the branch option disabled the loop stays at the review prompt and
never creates a branch. -/
def lockedInv (st : ReviewLoopState) : Prop :=
  st.showBranchOption = false ∧ st.mode = PromptMode.reviewing ∧
  st.branchesCreated = 0


example : slugify (chars "add refresh token") 3 = chars "refresh-token" := by decide
example : generate_fallback_branch (chars "feat(auth): add refresh token")
    = chars "feat/auth-refresh-token" := by decide
example : generate_fallback_branch (chars "fix login bug")
    = chars "feat/login-bug" := by decide
example : slugify (chars "!") 3 = [] := by decide
example : slugify (chars "\u00e9") 1 = ['\u00e9'] := by decide
example : generate_fallback_branch (chars "feat(AUTH): !!!")
    = chars "feat/AUTH-" := by decide


example : parseBranchAnalysisResponse (chars "not json") = none := by decide
example : parseBranchAnalysisResponse
    (chars "\x7b\"matches\":true,\"reason\":\"ok\"\x7d")
    = some ⟨true, chars "ok", none⟩ := by decide
example : parseBranchAnalysisResponse
    (chars "```json\n\x7b\"matches\":true,\"reason\":\"ok\"\x7d\n```")
    = some ⟨true, chars "ok", none⟩ := by decide


example :
    runReviewLoop false true
      [chars "x", chars "b", chars "e", chars "my-name", chars "Y", chars "n"]
    = ⟨PromptMode.reviewing, false, 1, true⟩ := by decide
example :
    (runReviewLoop false false [chars "b", chars "y", chars "b", chars "y"]).branchesCreated
    = 0 := by decide
example : (configAutoCommitCmd ⟨true, false, chars "m", false⟩ (chars "True")).newConfig
    = ⟨false, false, chars "m", false⟩ := by decide

/-- C1 counterexample: with the current branch `main` — a member of
`PROTECTED_BRANCHES` — and a parsed verdict saying `matches = true`, the
verdict handling of `main` takes the matched path: no mismatch handling, no
suggestion, no branch, `branch_already_handled` left false.  The protected
set is not consulted locally; protection relies on the classifier prompt
text alone. -/
theorem claim_C1_counterexample :
    chars "main" ∈ protectedBranches ∧
    alignmentPhase false false (chars "main") (chars "fix login bug")
      ⟨true, chars "ok", none⟩ BranchAction.Skip
      = ⟨none, none, false⟩ := by decide

/-- C1 (amended): whatever the current branch — in particular any member of
the protected set — the mismatch-handling path of the workflow is taken
exactly when the parsed verdict has `matches = false`; protected-branch
membership is never consulted by the response-handling code. -/
theorem claim_C1_amended (autoBranch cliYes : Bool)
    (branch message : List Char) (analysis : BranchAnalysis)
    (action : BranchAction) (hprot : branch ∈ protectedBranches) :
    (alignmentPhase autoBranch cliYes branch message analysis action).branchHandled
      = !analysis.«matches» := by
  cases hm : analysis.«matches» <;> cases autoBranch <;> cases cliYes <;>
    cases action <;> simp [alignmentPhase, hm]

/-- Witness for C1 (amended) at branch `main` with a `matches = true`
verdict. -/
theorem claim_C1_amended_witness :
    (alignmentPhase false false (chars "main") (chars "fix login bug")
      ⟨true, chars "ok", none⟩ BranchAction.Skip).branchHandled
      = !(BranchAnalysis.mk true (chars "ok") none).«matches» :=
  claim_C1_amended false false (chars "main") (chars "fix login bug")
    ⟨true, chars "ok", none⟩ BranchAction.Skip (by decide)

/-- C2 counterexample: in an `--auto-branch` run, a classifier failure makes
the alignment-checked section of `main` return the error (the `?` operator),
aborting the run instead of falling back to the deterministic synthesizer
and creating a branch. -/
theorem claim_C2_counterexample :
    runAlignmentCheck true false (chars "main") (chars "fix login bug")
      (Except.error (chars "API error (500): boom")) BranchAction.Skip
      = Except.error (chars "API error (500): boom") := rfl

/-- C2 (amended): a classification failure aborts the run with the error;
the deterministic fallback `generate_fallback_branch` is used only (a) when
classification succeeds but the mismatch verdict omits a suggestion, and
(b) when the separate branch-name suggestion service call of the
interactive create-branch path fails. -/
theorem claim_C2_amended (autoBranch cliYes : Bool)
    (branch message e svcErr : List Char) (analysis : BranchAnalysis)
    (action : BranchAction) :
    runAlignmentCheck autoBranch cliYes branch message (Except.error e) action
      = Except.error e
    ∧ runAlignmentCheck autoBranch cliYes branch message (Except.ok analysis) action
      = Except.ok (alignmentPhase autoBranch cliYes branch message analysis action)
    ∧ branchSuggestionOutcome (Except.error svcErr) message
      = generate_fallback_branch message :=
  ⟨rfl, rfl, rfl⟩

/-- C5: the deterministic synthesizer produces exactly the spec's example
outputs: the filler word `add` is dropped from the description slug of
`feat(auth): add refresh token`, and `fix login bug` (no
conventional-commit grammar) becomes `feat/login-bug` with `fix` filtered
and `login`, `bug` kept. -/
theorem claim_C5 :
    generate_fallback_branch (chars "feat(auth): add refresh token")
      = chars "feat/auth-refresh-token"
    ∧ generate_fallback_branch (chars "fix login bug")
      = chars "feat/login-bug" := by decide

/-- C8: whenever the verdict has `matches = false` and the service omitted
`suggested_branch`, the workflow synthesizes the suggestion with
`generate_fallback_branch(message)` before any branch decision is presented
or taken, and the mismatch is handled. -/
theorem claim_C8 (autoBranch cliYes : Bool) (branch message : List Char)
    (analysis : BranchAnalysis) (action : BranchAction)
    (hm : analysis.«matches» = false)
    (hs : analysis.suggested_branch = none) :
    (alignmentPhase autoBranch cliYes branch message analysis action).suggestionShown
      = some (generate_fallback_branch message)
    ∧ (alignmentPhase autoBranch cliYes branch message analysis
        action).branchHandled = true := by
  cases autoBranch <;> cases cliYes <;> cases action <;>
    simp [alignmentPhase, hm, hs]

/-- Witness for C8 at a concrete mismatch verdict without suggestion. -/
theorem claim_C8_witness :
    (alignmentPhase false false (chars "feat/auth") (chars "fix login bug")
      ⟨false, chars "unrelated", none⟩ BranchAction.Skip).suggestionShown
      = some (generate_fallback_branch (chars "fix login bug"))
    ∧ (alignmentPhase false false (chars "feat/auth") (chars "fix login bug")
      ⟨false, chars "unrelated", none⟩ BranchAction.Skip).branchHandled = true :=
  claim_C8 false false (chars "feat/auth") (chars "fix login bug")
    ⟨false, chars "unrelated", none⟩ BranchAction.Skip rfl rfl

/-- C10: a boolean config subcommand applied to any value other than
exactly `true` or `false` reports no error and persists the option as
`false`, discarding the previous value. -/
theorem claim_C10 (c : Config) (v : List Char)
    (h1 : v ≠ chars "true") (h2 : v ≠ chars "false") :
    configAutoCommitCmd c v = ⟨{ c with auto_commit := false }, false⟩
    ∧ configCommitAfterBranchCmd c v
      = ⟨{ c with commit_after_branch := false }, false⟩
    ∧ configVerboseCmd c v = ⟨{ c with verbose := false }, false⟩ := by
  simp [configAutoCommitCmd, configCommitAfterBranchCmd, configVerboseCmd,
    rustParseBool, h1, h2]

/-- Witness for C10 on the value `True` (wrong case), with every option
previously `true`. -/
theorem claim_C10_witness :
    configAutoCommitCmd ⟨true, true, chars "m", true⟩ (chars "True")
      = ⟨⟨false, true, chars "m", true⟩, false⟩
    ∧ configCommitAfterBranchCmd ⟨true, true, chars "m", true⟩ (chars "True")
      = ⟨⟨true, false, chars "m", true⟩, false⟩
    ∧ configVerboseCmd ⟨true, true, chars "m", true⟩ (chars "True")
      = ⟨⟨true, true, chars "m", false⟩, false⟩ :=
  claim_C10 ⟨true, true, chars "m", true⟩ (chars "True") (by decide) (by decide)

/-- `Char.ofNat` below the surrogate range keeps the code point. -/
theorem charOfNat_toNat {n : Nat} (h : n < 0xd800) : (Char.ofNat n).toNat = n := by
  have hv : n.isValidChar := Or.inl h
  simp [Char.ofNat, hv, Char.ofNatAux, Char.toNat]
  rfl

/-- Characters of words produced by `splitWhitespaceAux` come from the input
or the accumulator. -/
theorem mem_splitWhitespaceAux :
    ∀ (l acc w : List Char), w ∈ splitWhitespaceAux l acc →
      ∀ c ∈ w, c ∈ l ∨ c ∈ acc := by
  intro l
  induction l with
  | nil =>
    intro acc w hw c hc
    rw [splitWhitespaceAux] at hw
    cases acc with
    | nil => simp at hw
    | cons x xs =>
      simp at hw
      subst hw
      right
      rcases List.mem_append.1 hc with h | h
      · exact List.mem_cons_of_mem _ ((List.mem_reverse).1 h)
      · simp at h
        subst h
        exact List.mem_cons_self _ _
  | cons a rest ih =>
    intro acc w hw c hc
    rw [splitWhitespaceAux] at hw
    cases hws : rustIsWhitespace a
    · simp [hws] at hw
      rcases ih (a :: acc) w hw c hc with h | h
      · exact Or.inl (List.mem_cons_of_mem _ h)
      · rcases List.mem_cons.1 h with h | h
        · subst h
          exact Or.inl (List.mem_cons_self _ _)
        · exact Or.inr h
    · simp [hws] at hw
      cases acc with
      | nil =>
        simp at hw
        rcases ih [] w hw c hc with h | h
        · exact Or.inl (List.mem_cons_of_mem _ h)
        · simp at h
      | cons x xs =>
        simp at hw
        rcases hw with hw | hw
        · subst hw
          right
          rcases List.mem_append.1 hc with h | h
          · exact List.mem_cons_of_mem _ ((List.mem_reverse).1 h)
          · simp at h
            subst h
            exact List.mem_cons_self _ _
        · rcases ih [] w hw c hc with h | h
          · exact Or.inl (List.mem_cons_of_mem _ h)
          · simp at h

/-- Characters of `split_whitespace` words come from the input. -/
theorem mem_splitWhitespace {l w : List Char} (hw : w ∈ splitWhitespace l)
    {c : Char} (hc : c ∈ w) : c ∈ l := by
  rcases mem_splitWhitespaceAux l [] w hw c hc with h | h
  · exact h
  · simp at h

/-- Characters of a hyphen join are hyphens or word characters. -/
theorem mem_joinHyphen :
    ∀ (ws : List (List Char)) (c : Char), c ∈ joinHyphen ws →
      c = '-' ∨ ∃ w ∈ ws, c ∈ w := by
  intro ws
  induction ws with
  | nil =>
    intro c hc
    simp [joinHyphen] at hc
  | cons w rest ih =>
    intro c hc
    cases rest with
    | nil =>
      simp [joinHyphen] at hc
      exact Or.inr ⟨w, by simp, hc⟩
    | cons v vs =>
      rw [joinHyphen] at hc
      rcases List.mem_append.1 hc with h | h
      · exact Or.inr ⟨w, by simp, h⟩
      · rcases List.mem_cons.1 h with h | h
        · exact Or.inl h
        · rcases ih c h with h | ⟨u, hu, hcu⟩
          · exact Or.inl h
          · exact Or.inr ⟨u, List.mem_cons_of_mem _ hu, hcu⟩

/-- A word character appears in the hyphen join of its word list. -/
theorem mem_joinHyphen_intro :
    ∀ (ws : List (List Char)) (w : List Char) (c : Char),
      w ∈ ws → c ∈ w → c ∈ joinHyphen ws := by
  intro ws
  induction ws with
  | nil =>
    intro w c hw
    simp at hw
  | cons u rest ih =>
    intro w c hw hc
    cases rest with
    | nil =>
      simp at hw
      subst hw
      simpa [joinHyphen] using hc
    | cons v vs =>
      rw [joinHyphen]
      rcases List.mem_cons.1 hw with h | h
      · subst h
        exact List.mem_append_left _ hc
      · exact List.mem_append_right _ (List.mem_cons_of_mem _ (ih w c h hc))

/-- Lowercasing an ASCII character stays ASCII and never lands in `A`–`Z`. -/
theorem rustToLowerChar_ascii {d : Char} (h : d.toNat < 128) :
    (rustToLowerChar d).toNat < 128 ∧
    ¬(0x41 ≤ (rustToLowerChar d).toNat ∧ (rustToLowerChar d).toNat ≤ 0x5a) := by
  unfold rustToLowerChar
  split_ifs with h1 h2
  · rw [charOfNat_toNat (by omega)]
    omega
  · omega
  · exact ⟨h, h1⟩

/-- The two branches of `slugify` written out, for rewriting. -/
theorem slugify_eq (text : List Char) (n : Nat) :
    slugify text n =
      if (((splitWhitespace text).filter
            (fun w => !(fillerWords.contains (rustToLowercase w)))).take n).isEmpty
      then (rustToLowercase (joinHyphen ((splitWhitespace text).take n))).filter keepChar
      else (rustToLowercase (joinHyphen
          (((splitWhitespace text).filter
            (fun w => !(fillerWords.contains (rustToLowercase w)))).take n))).filter
          keepChar := rfl

/-- Every character of a filtered, lowercased hyphen join of words of an
ASCII `text` is an ASCII lowercase letter, an ASCII digit, or a hyphen. -/
theorem mem_lowerJoin_ascii (text : List Char)
    (h : ∀ c ∈ text, c.toNat < 128) (ws : List (List Char))
    (hws : ∀ w ∈ ws, w ∈ splitWhitespace text) :
    ∀ c ∈ (rustToLowercase (joinHyphen ws)).filter keepChar,
      (0x61 ≤ c.toNat ∧ c.toNat ≤ 0x7a) ∨
      (0x30 ≤ c.toNat ∧ c.toNat ≤ 0x39) ∨ c = '-' := by
  intro c hc
  rcases List.mem_filter.1 hc with ⟨hmem, hkeep⟩
  rcases List.mem_map.1 hmem with ⟨d, hd, hdc⟩
  subst hdc
  rcases mem_joinHyphen ws d hd with rfl | ⟨w, hw, hdw⟩
  · right; right
    decide
  · have hascii : d.toNat < 128 := h d (mem_splitWhitespace (hws w hw) hdw)
    have hlow := rustToLowerChar_ascii hascii
    simp only [keepChar, Bool.or_eq_true, decide_eq_true_eq] at hkeep
    rcases hkeep with hk | hk
    · simp [rustIsAlphanumeric] at hk
      have hnum : (0x61 ≤ (rustToLowerChar d).toNat ∧ (rustToLowerChar d).toNat ≤ 0x7a) ∨
          (0x30 ≤ (rustToLowerChar d).toNat ∧ (rustToLowerChar d).toNat ≤ 0x39) := by
        rcases hlow with ⟨hl1, hl2⟩
        omega
      rcases hnum with hnum | hnum
      · exact Or.inl hnum
      · exact Or.inr (Or.inl hnum)
    · right; right
      exact hk

/-- Lowercasing keeps an ASCII letter or digit inside the kept character
set of `slugify`. -/
theorem keep_toLower_of_asciiAlnum {d : Char} (h : isAsciiAlnum d = true) :
    keepChar (rustToLowerChar d) = true := by
  simp [isAsciiAlnum] at h
  have halnum : rustIsAlphanumeric (rustToLowerChar d) = true := by
    unfold rustToLowerChar
    split_ifs with h1 h2
    · have ht : (Char.ofNat (d.toNat + 0x20)).toNat = d.toNat + 0x20 :=
        charOfNat_toNat (by omega)
      simp [rustIsAlphanumeric, ht]
      omega
    · simp [rustIsAlphanumeric]
      omega
    · simp [rustIsAlphanumeric]
      omega
  simp [keepChar, halnum]

/-- C3 counterexample: `slugify` keeps the non-ASCII letter `é` (Rust's
`char::is_alphanumeric` is the Unicode property), so its output is not
contained in `[a-z0-9-]`. -/
theorem claim_C3_counterexample :
    slugify (chars "é") 1 = ['é'] ∧
    ¬((0x61 ≤ ('é').toNat ∧ ('é').toNat ≤ 0x7a) ∨
      (0x30 ≤ ('é').toNat ∧ ('é').toNat ≤ 0x39) ∨
      'é' = '-') := by decide

/-- Characters of `slugify` on ASCII input lie in `[a-z0-9-]`. -/
theorem slugify_ascii (text : List Char) (n : Nat)
    (h : ∀ c ∈ text, c.toNat < 128) :
    ∀ c ∈ slugify text n,
      (0x61 ≤ c.toNat ∧ c.toNat ≤ 0x7a) ∨
      (0x30 ≤ c.toNat ∧ c.toNat ≤ 0x39) ∨ c = '-' := by
  intro c hc
  rw [slugify_eq] at hc
  rcases ite_eq_or_eq
      ((((splitWhitespace text).filter
        (fun w => !(fillerWords.contains (rustToLowercase w)))).take n).isEmpty)
      ((rustToLowercase (joinHyphen ((splitWhitespace text).take n))).filter keepChar)
      ((rustToLowercase (joinHyphen
          (((splitWhitespace text).filter
            (fun w => !(fillerWords.contains (rustToLowercase w)))).take n))).filter
          keepChar) with he | he
  all_goals rw [he] at hc
  · exact mem_lowerJoin_ascii text h _
      (fun w hw => List.take_subset _ _ hw) c hc
  · exact mem_lowerJoin_ascii text h _
      (fun w hw => List.mem_of_mem_filter (List.take_subset _ _ hw)) c hc

/-- C3 (amended): for every ASCII input string and every bound, the
characters of `slugify text n` all lie in `[a-z0-9-]`; in general the
output consists of Unicode alphanumerics and hyphens, so non-ASCII
alphanumerics can survive. -/
theorem claim_C3_amended (text : List Char) (n : Nat)
    (h : ∀ c ∈ text, c.toNat < 128) :
    ∀ c ∈ slugify text n,
      (0x61 ≤ c.toNat ∧ c.toNat ≤ 0x7a) ∨
      (0x30 ≤ c.toNat ∧ c.toNat ≤ 0x39) ∨ c = '-' := slugify_ascii text n h

/-- Witness for C3 (amended) on an ASCII input with uppercase letters. -/
theorem claim_C3_amended_witness :
    (∀ c ∈ chars "Fix The BUG", c.toNat < 128) ∧
    ∀ c ∈ slugify (chars "Fix The BUG") 3,
      (0x61 ≤ c.toNat ∧ c.toNat ≤ 0x7a) ∨
      (0x30 ≤ c.toNat ∧ c.toNat ≤ 0x39) ∨ c = '-' :=
  ⟨by decide, claim_C3_amended (chars "Fix The BUG") 3 (by decide)⟩

/-- C4 counterexample: `"!"` is neither empty nor whitespace-only (it
splits into one word), yet `slugify` returns the empty string, because the
character filter removes everything that is not alphanumeric or a
hyphen. -/
theorem claim_C4_counterexample :
    slugify (chars "!") 3 = [] ∧ chars "!" ≠ [] ∧
    splitWhitespace (chars "!") ≠ [] := by decide

/-- C4 (amended): `slugify text n` is non-empty whenever the bound is
positive, `text` contains at least one whitespace-separated word, and every
word contains an ASCII letter or digit.  The result can be empty not only
for empty or whitespace-only input but also for entirely symbolic words
(such as `"!"`), whose characters are all stripped. -/
theorem claim_C4_amended (text : List Char) (n : Nat) (hn : 0 < n)
    (hne : splitWhitespace text ≠ [])
    (ha : ∀ w ∈ splitWhitespace text, ∃ c ∈ w, isAsciiAlnum c = true) :
    slugify text n ≠ [] := by
  have main : ∀ ws : List (List Char), ws ≠ [] →
      (∀ w ∈ ws, w ∈ splitWhitespace text) →
      (rustToLowercase (joinHyphen ws)).filter keepChar ≠ [] := by
    intro ws hne2 hsub
    rcases List.exists_mem_of_ne_nil ws hne2 with ⟨w, hw⟩
    rcases ha w (hsub w hw) with ⟨d, hdw, hdal⟩
    have hdj : d ∈ joinHyphen ws := mem_joinHyphen_intro ws w d hw hdw
    have hcm : rustToLowerChar d ∈ rustToLowercase (joinHyphen ws) :=
      List.mem_map_of_mem _ hdj
    exact List.ne_nil_of_mem
      (List.mem_filter.2 ⟨hcm, keep_toLower_of_asciiAlnum hdal⟩)
  rw [slugify_eq]
  split
  · apply main
    · rcases List.exists_cons_of_ne_nil hne with ⟨w, ws, hws⟩
      rcases Nat.exists_eq_add_of_lt hn with ⟨m, hm⟩
      rw [hws]
      cases n with
      | zero => omega
      | succ k => simp
    · exact fun w hw => List.take_subset _ _ hw
  · rename_i hcond
    apply main
    · intro hnil
      rw [hnil] at hcond
      simp at hcond
    · exact fun w hw => List.mem_of_mem_filter (List.take_subset _ _ hw)

/-- Witness for C4 (amended) on the input `hi` with bound 1. -/
theorem claim_C4_amended_witness :
    0 < 1 ∧ splitWhitespace (chars "hi") ≠ [] ∧
    (∀ w ∈ splitWhitespace (chars "hi"), ∃ c ∈ w, isAsciiAlnum c = true) ∧
    slugify (chars "hi") 1 ≠ [] :=
  ⟨by decide, by decide, by decide,
    claim_C4_amended (chars "hi") 1 (by decide) (by decide) (by decide)⟩

/-- Each review-loop step preserves the branch-count invariant. -/
theorem reviewStep_inv (cab : Bool) (st : ReviewLoopState) (input : List Char)
    (h : loopInv st) : loopInv (reviewStep cab st input) := by
  obtain ⟨mode, sb, n, fin⟩ := st
  obtain ⟨h1, h2⟩ := h
  simp only [loopInv] at h1 h2 ⊢
  cases fin <;> cases mode <;> simp only [reviewStep] <;> split_ifs <;> simp_all

/-- Each review-loop step preserves the disabled-option invariant. -/
theorem reviewStep_locked (cab : Bool) (st : ReviewLoopState) (input : List Char)
    (h : lockedInv st) : lockedInv (reviewStep cab st input) := by
  obtain ⟨mode, sb, n, fin⟩ := st
  obtain ⟨h1, h2, h3⟩ := h
  simp only [lockedInv] at h1 h2 h3 ⊢
  subst h1
  subst h2
  subst h3
  cases fin <;> simp only [reviewStep] <;> split_ifs <;> simp_all

/-- The branch-count invariant holds after any input sequence. -/
theorem foldl_loopInv (cab : Bool) (inputs : List (List Char)) :
    ∀ st : ReviewLoopState, loopInv st →
      loopInv (inputs.foldl (reviewStep cab) st) := by
  induction inputs with
  | nil => exact fun st h => h
  | cons i is ih => exact fun st h => ih _ (reviewStep_inv cab st i h)

/-- The disabled-option invariant holds after any input sequence. -/
theorem foldl_locked (cab : Bool) (inputs : List (List Char)) :
    ∀ st : ReviewLoopState, lockedInv st →
      lockedInv (inputs.foldl (reviewStep cab) st) := by
  induction inputs with
  | nil => exact fun st h => h
  | cons i is ih => exact fun st h => ih _ (reviewStep_locked cab st i h)

/-- The review loop creates at most one branch. -/
theorem runReviewLoop_le_one (cab sb : Bool) (inputs : List (List Char)) :
    (runReviewLoop cab sb inputs).branchesCreated ≤ 1 :=
  (foldl_loopInv cab inputs _ ⟨Nat.zero_le 1, fun _ => rfl⟩).1

/-- The review loop creates no branch when the branch option starts
disabled. -/
theorem runReviewLoop_disabled (cab : Bool) (inputs : List (List Char)) :
    (runReviewLoop cab false inputs).branchesCreated = 0 :=
  (foldl_locked cab inputs _ ⟨rfl, rfl, rfl⟩).2.2

/-- A branch created by the alignment phase marks branching as handled. -/
theorem alignmentPhase_created_handled (autoBranch cliYes : Bool)
    (branch message : List Char) (analysis : BranchAnalysis)
    (action : BranchAction)
    (hc : (alignmentPhase autoBranch cliYes branch message analysis
        action).branchCreated.isSome = true) :
    (alignmentPhase autoBranch cliYes branch message analysis
        action).branchHandled = true := by
  cases hm : analysis.«matches» <;> cases autoBranch <;> cases cliYes <;>
    cases action <;> simp_all [alignmentPhase]

/-- C9: a full run of `main` creates at most one branch, however the flags,
configuration, classifier verdict and user inputs play out: once a branch
decision is made — in the pre-flight alignment path or via the
create-branch-first option — every later pass through the review prompt has
the create-branch option disabled (second conjunct: a loop started with the
option disabled never creates a branch). -/
theorem claim_C9 (branchFlag autoBranch cliYes autoCommit dryRun cab : Bool)
    (currentBranch message : List Char)
    (classifierResult : Except (List Char) BranchAnalysis)
    (alignAction : BranchAction) (loopInputs : List (List Char)) :
    totalBranchesInRun branchFlag autoBranch cliYes autoCommit dryRun cab
      currentBranch message classifierResult alignAction loopInputs ≤ 1
    ∧ (runReviewLoop cab false loopInputs).branchesCreated = 0 := by
  refine ⟨?_, runReviewLoop_disabled cab loopInputs⟩
  unfold totalBranchesInRun
  by_cases hbf : branchFlag ∨ autoBranch
  · rw [if_pos hbf]
    cases classifierResult with
    | error e => simp [runAlignmentCheck]
    | ok analysis =>
      simp only [runAlignmentCheck]
      by_cases hc : (alignmentPhase autoBranch cliYes currentBranch message
          analysis alignAction).branchCreated.isSome
      · have hh := alignmentPhase_created_handled autoBranch cliYes
          currentBranch message analysis alignAction hc
        simp only [hc, if_true, hh, Bool.not_true]
        split_ifs <;> simp [runReviewLoop_disabled]
      · simp only [Bool.not_eq_true] at hc
        simp only [hc, Bool.false_eq_true, if_false]
        split_ifs <;> simp [runReviewLoop_le_one]
  · rw [if_neg hbf]
    split_ifs <;> simp [runReviewLoop_le_one]

/-- Characters of the description produced by `parseColonDesc` come from
its input. -/
theorem parseColonDesc_subset {r d : List Char}
    (h : parseColonDesc r = some d) : ∀ c ∈ d, c ∈ r := by
  cases r with
  | nil => simp [parseColonDesc] at h
  | cons a after =>
    simp only [parseColonDesc] at h
    split_ifs at h with ha hemp
    · cases hl : after.getLast? with
      | none => rw [hl] at h; cases h
      | some x =>
        rw [hl] at h
        cases h
        intro c hc
        simp at hc
        subst hc
        rcases List.mem_getLast?_eq_getLast hl with ⟨hne, hx⟩
        subst hx
        exact List.mem_cons_of_mem _ (List.getLast_mem hne)
    · cases h
      intro c hc
      exact List.mem_cons_of_mem _
        (List.dropWhile_subset rustIsWhitespace hc)

/-- The remainder produced by `parseScopeRest` is contained in its
input. -/
theorem parseScopeRest_subset {r1 : List Char} {scope : Option (List Char)}
    {r2 : List Char} (h : parseScopeRest r1 = some (scope, r2)) :
    ∀ c ∈ r2, c ∈ r1 := by
  cases r1 with
  | nil =>
    simp [parseScopeRest] at h
    rw [h.2]
    exact fun c hc => hc
  | cons a after =>
    simp only [parseScopeRest] at h
    split_ifs at h with ha hemp
    · cases hd : after.drop ((after.takeWhile (fun c => !(c = ')'))).length) with
      | nil => simp [hd] at h
      | cons b rest =>
        simp only [hd] at h
        split_ifs at h with hb
        · cases h
          intro c hc
          have hcd : c ∈ after.drop
              ((after.takeWhile (fun c => !(c = ')'))).length) := by
            rw [hd]
            exact List.mem_cons_of_mem _ hc
          exact List.mem_cons_of_mem _ (List.drop_subset _ _ hcd)
    · cases h
      exact fun c hc => hc

/-- Structure of a successful conventional-commit parse: the type is the
non-empty leading lowercase run, and the description characters come from
the line. -/
theorem parseConventional_spec {line : List Char} {h : ParsedHeader}
    (hp : parseConventional line = some h) :
    h.commit_type ≠ [] ∧ (∀ c ∈ h.commit_type, isLowerAlpha c = true) ∧
    ∀ c ∈ h.description, c ∈ line := by
  unfold parseConventional at hp
  cases hty : parseTypeRest line with
  | none => simp [hty] at hp
  | some tr =>
    obtain ⟨ty, r1⟩ := tr
    simp only [hty] at hp
    cases hsc : parseScopeRest r1 with
    | none => simp [hsc] at hp
    | some sr =>
      obtain ⟨scope, r2⟩ := sr
      simp only [hsc] at hp
      cases hcd : parseColonDesc r2 with
      | none => simp [hcd] at hp
      | some d =>
        simp only [hcd, Option.some.injEq] at hp
        subst hp
        simp only [parseTypeRest] at hty
        split_ifs at hty with hemp
        simp only [Option.some.injEq, Prod.mk.injEq] at hty
        obtain ⟨hty1, hty2⟩ := hty
        subst hty1
        subst hty2
        refine ⟨?_, ?_, ?_⟩
        · intro hnil
          exact hemp (by rw [show List.takeWhile isLowerAlpha line = [] from hnil]; rfl)
        · exact fun c hc => List.mem_takeWhile_imp hc
        · intro c hc
          have h2 : c ∈ r2 := parseColonDesc_subset hcd c hc
          have h1 : c ∈ line.drop
              ((line.takeWhile isLowerAlpha).length) :=
            parseScopeRest_subset hsc c h2
          exact List.drop_subset _ _ h1

/-- Characters of the first line come from the message. -/
theorem firstLine_subset (msg : List Char) :
    ∀ c ∈ firstLine msg, c ∈ msg := by
  intro c hc
  simp only [firstLine] at hc
  split_ifs at hc with h1 h2
  · exact List.takeWhile_subset _ (List.dropLast_subset _ hc)
  · exact List.takeWhile_subset _ hc
  · exact List.takeWhile_subset _ hc

/-- C6 counterexample: a parsed scope is interpolated verbatim into the
branch name, so `feat(AUTH): !!!` yields `feat/AUTH-`, which contains the
uppercase `A` — outside `[a-z0-9-]` and distinct from the separator — and
whose description slug is empty. -/
theorem claim_C6_counterexample :
    generate_fallback_branch (chars "feat(AUTH): !!!") = chars "feat/AUTH-" ∧
    'A' ∈ generate_fallback_branch (chars "feat(AUTH): !!!") ∧ 'A' ≠ '/' ∧
    ¬((0x61 ≤ ('A').toNat ∧ ('A').toNat ≤ 0x7a) ∨
      (0x30 ≤ ('A').toNat ∧ ('A').toNat ≤ 0x39) ∨ 'A' = '-') := by decide

/-- C6 (amended): for an ASCII message whose first line parses without a
scope (or does not parse at all), the synthesized branch name is
`type/slug` with a non-empty all-lowercase type and a slug over
`[a-z0-9-]` built from at most 3 description words.  When a scope is
present it is interpolated verbatim, so the character invariant can fail,
and the slug may be empty for entirely symbolic descriptions. -/
theorem claim_C6_amended (msg : List Char)
    (hascii : ∀ c ∈ msg, c.toNat < 128)
    (hns : (parseConventional (firstLine msg)).bind ParsedHeader.scope = none) :
    ∃ ty rest, generate_fallback_branch msg = ty ++ '/' :: rest ∧
      ty ≠ [] ∧ (∀ c ∈ ty, isLowerAlpha c = true) ∧
      ∀ c ∈ rest,
        (0x61 ≤ c.toNat ∧ c.toNat ≤ 0x7a) ∨
        (0x30 ≤ c.toNat ∧ c.toNat ≤ 0x39) ∨ c = '-' := by
  cases hp : parseConventional (firstLine msg) with
  | none =>
    simp only [generate_fallback_branch, hp]
    refine ⟨chars "feat", slugify (firstLine msg) 3, rfl, by decide, by decide, ?_⟩
    exact slugify_ascii _ 3
      (fun c hc => hascii c (firstLine_subset msg c hc))
  | some h =>
    have hsp := parseConventional_spec hp
    have hscope : h.scope = none := by
      rw [hp] at hns
      exact hns
    simp only [generate_fallback_branch, hp, hscope]
    refine ⟨h.commit_type, slugify h.description 3, rfl, hsp.1, hsp.2.1, ?_⟩
    exact slugify_ascii _ 3
      (fun c hc => hascii c (firstLine_subset msg c (hsp.2.2 c hc)))

/-- Witness for C6 (amended) on the scopeless message `fix login bug`. -/
theorem claim_C6_amended_witness :
    ∃ ty rest,
      generate_fallback_branch (chars "fix login bug") = ty ++ '/' :: rest ∧
      ty ≠ [] ∧ (∀ c ∈ ty, isLowerAlpha c = true) ∧
      ∀ c ∈ rest,
        (0x61 ≤ c.toNat ∧ c.toNat ≤ 0x7a) ∨
        (0x30 ≤ c.toNat ∧ c.toNat ≤ 0x39) ∨ c = '-' :=
  claim_C6_amended (chars "fix login bug") (by decide) (by decide)

/-- Stripping a prefix that is literally there yields the remainder. -/
theorem stripPrefixL_append :
    ∀ p r : List Char, stripPrefixL p (p ++ r) = some r := by
  intro p
  induction p with
  | nil => intro r; rfl
  | cons a ps ih => intro r; simp [stripPrefixL, ih]

/-- Stripping fails immediately on a differing head. -/
theorem stripPrefixL_ne {a b : Char} {p l : List Char} (h : ¬a = b) :
    stripPrefixL (a :: p) (b :: l) = none := by
  simp [stripPrefixL, h]

/-- A longer prefix also fails to strip. -/
theorem stripPrefixL_none_append {p q l : List Char}
    (h : stripPrefixL p l = none) : stripPrefixL (p ++ q) l = none := by
  induction p generalizing l with
  | nil => simp [stripPrefixL] at h
  | cons a ps ih =>
    cases l with
    | nil => rfl
    | cons b bs =>
      simp only [stripPrefixL, List.cons_append] at h ⊢
      split_ifs at h ⊢ with hab
      · exact ih h
      · rfl

/-- Stripping below a common prefix. -/
theorem stripPrefixL_append_left :
    ∀ p q l : List Char, stripPrefixL (p ++ q) (p ++ l) = stripPrefixL q l := by
  intro p
  induction p with
  | nil => intro q l; rfl
  | cons a ps ih => intro q l; simp [stripPrefixL, ih]

/-- Stripping a suffix that is literally there yields the front. -/
theorem stripSuffixL_append (p x : List Char) :
    stripSuffixL p (x ++ p) = some x := by
  unfold stripSuffixL
  rw [List.reverse_append, stripPrefixL_append]
  simp

/-- `trim_start` is the identity when the head is not whitespace. -/
theorem trimLeft_cons_nonws {c : Char} {l : List Char}
    (h : rustIsWhitespace c = false) : trimLeft (c :: l) = c :: l := by
  simp [trimLeft, List.dropWhile_cons, h]

/-- `trim_end` is the identity on a list ending in non-whitespace. -/
theorem trimRight_append_nonws {c : Char} (l : List Char)
    (h : rustIsWhitespace c = false) : trimRight (l ++ [c]) = l ++ [c] := by
  unfold trimRight
  rw [List.reverse_append]
  simp [List.dropWhile_cons, h]

/-- `trim_end` drops one trailing whitespace character. -/
theorem trimRight_append_ws {c : Char} (l : List Char)
    (h : rustIsWhitespace c = true) : trimRight (l ++ [c]) = trimRight l := by
  unfold trimRight
  rw [List.reverse_append]
  simp [List.dropWhile_cons, h]

/-- `trim_end` keeps a non-whitespace head. -/
theorem trimRight_cons_nonws {c : Char} {l : List Char}
    (h : rustIsWhitespace c = false) : trimRight (c :: l) = c :: trimRight l := by
  unfold trimRight
  rw [show (c :: l).reverse = l.reverse ++ [c] from by simp]
  rw [List.dropWhile_append]
  split_ifs with he
  · simp only [List.isEmpty_iff] at he
    rw [he]
    simp [List.dropWhile_cons, h]
  · simp only [List.isEmpty_iff] at he
    rw [List.reverse_append]
    simp

/-- `trim` drops a leading whitespace character. -/
theorem rustTrim_cons_ws {c : Char} (l : List Char)
    (h : rustIsWhitespace c = true) : rustTrim (c :: l) = rustTrim l := by
  unfold rustTrim trimRight
  rw [show (c :: l).reverse = l.reverse ++ [c] from by simp]
  rw [List.dropWhile_append]
  split_ifs with he
  · simp only [List.isEmpty_iff] at he
    rw [he]
    simp [trimLeft, List.dropWhile_cons, h]
  · rw [List.reverse_append]
    simp only [List.reverse_cons, List.reverse_nil, List.nil_append,
      List.singleton_append]
    rw [show trimLeft (c :: (l.reverse.dropWhile rustIsWhitespace).reverse)
        = trimLeft ((l.reverse.dropWhile rustIsWhitespace).reverse) from by
      simp [trimLeft, List.dropWhile_cons, h]]

/-- `trim` drops a trailing whitespace character. -/
theorem rustTrim_append_ws {c : Char} (l : List Char)
    (h : rustIsWhitespace c = true) : rustTrim (l ++ [c]) = rustTrim l := by
  unfold rustTrim
  rw [trimRight_append_ws l h]

/-- `dropWhile` is idempotent. -/
theorem dropWhile_idem (p : Char → Bool) :
    ∀ l : List Char, (l.dropWhile p).dropWhile p = l.dropWhile p := by
  intro l
  induction l with
  | nil => rfl
  | cons a rest ih =>
    cases hp : p a
    · simp [List.dropWhile_cons, hp]
    · simp [List.dropWhile_cons, hp, ih]

/-- `trim_start` is idempotent. -/
theorem trimLeft_idem (l : List Char) : trimLeft (trimLeft l) = trimLeft l :=
  dropWhile_idem rustIsWhitespace l

/-- `trim_end` is idempotent. -/
theorem trimRight_idem (l : List Char) :
    trimRight (trimRight l) = trimRight l := by
  unfold trimRight
  rw [List.reverse_reverse, dropWhile_idem]

/-- `trim_start` and `trim_end` commute. -/
theorem trimLeft_trimRight_comm :
    ∀ l : List Char, trimLeft (trimRight l) = trimRight (trimLeft l) := by
  intro l
  induction l with
  | nil => rfl
  | cons c rest ih =>
    cases hc : rustIsWhitespace c
    · rw [trimRight_cons_nonws hc, trimLeft_cons_nonws hc,
        trimLeft_cons_nonws hc, trimRight_cons_nonws hc]
    · have hl : trimLeft (c :: rest) = trimLeft rest := by
        simp [trimLeft, List.dropWhile_cons, hc]
      rw [hl, ← ih]
      exact rustTrim_cons_ws rest hc

/-- `trim` is idempotent. -/
theorem rustTrim_idem (l : List Char) : rustTrim (rustTrim l) = rustTrim l := by
  unfold rustTrim
  rw [← trimLeft_trimRight_comm (trimRight l), trimRight_idem l,
    trimLeft_idem (trimRight l)]

/-- Fence stripping on a ```` ```json ````-fenced payload recovers the
trimmed payload. -/
theorem stripFence_fenceJson (s : List Char) :
    stripFence (chars "```json" ++ '\n' :: (s ++ '\n' :: chars "```"))
      = rustTrim s := by
  have hF2 : chars "```json" ++ '\n' :: (s ++ '\n' :: chars "```")
      = (chars "```json" ++ '\n' :: (s ++ '\n' :: chars "``")) ++ ['\u0060'] := by
    rw [show chars "```" = chars "``" ++ ['\u0060'] from rfl]
    simp
  have htr : trimRight (chars "```json" ++ '\n' :: (s ++ '\n' :: chars "```"))
      = chars "```json" ++ '\n' :: (s ++ '\n' :: chars "```") := by
    rw [hF2]
    exact trimRight_append_nonws _ (by decide)
  have htl : trimLeft (chars "```json" ++ '\n' :: (s ++ '\n' :: chars "```"))
      = chars "```json" ++ '\n' :: (s ++ '\n' :: chars "```") := by
    show trimLeft ('\u0060' :: (chars "``json" ++ '\n' :: (s ++ '\n' :: chars "```")))
      = '\u0060' :: (chars "``json" ++ '\n' :: (s ++ '\n' :: chars "```"))
    exact trimLeft_cons_nonws (by decide)
  have h0 : rustTrim (chars "```json" ++ '\n' :: (s ++ '\n' :: chars "```"))
      = chars "```json" ++ '\n' :: (s ++ '\n' :: chars "```") := by
    unfold rustTrim
    rw [htr, htl]
  have h1 : stripPrefixL (chars "```json")
        (chars "```json" ++ '\n' :: (s ++ '\n' :: chars "```"))
      = some ('\n' :: (s ++ '\n' :: chars "```")) := stripPrefixL_append _ _
  have h2 : stripPrefixL (chars "```") ('\n' :: (s ++ '\n' :: chars "```"))
      = none := by
    show stripPrefixL ('\u0060' :: chars "``") ('\n' :: (s ++ '\n' :: chars "```"))
      = none
    exact stripPrefixL_ne (by decide)
  have h3 : '\n' :: (s ++ '\n' :: chars "```")
      = ('\n' :: (s ++ ['\n'])) ++ chars "```" := by simp
  have h4 : stripSuffixL (chars "```") ('\n' :: (s ++ '\n' :: chars "```"))
      = some ('\n' :: (s ++ ['\n'])) := by
    rw [h3]
    exact stripSuffixL_append _ _
  have h5 : rustTrim ('\n' :: (s ++ ['\n'])) = rustTrim s := by
    rw [rustTrim_cons_ws _ (by decide), rustTrim_append_ws _ (by decide)]
  unfold stripFence stripPrefixOr stripSuffixOr
  rw [h0, h1]
  simp only [Option.getD_some]
  rw [h2]
  simp only [Option.getD_none]
  rw [h4]
  simp only [Option.getD_some]
  exact h5

/-- Fence stripping on a bare-fenced payload (no language tag) recovers the
trimmed payload. -/
theorem stripFence_fenceBare (s : List Char) :
    stripFence (chars "```" ++ '\n' :: (s ++ '\n' :: chars "```"))
      = rustTrim s := by
  have hF2 : chars "```" ++ '\n' :: (s ++ '\n' :: chars "```")
      = (chars "```" ++ '\n' :: (s ++ '\n' :: chars "``")) ++ ['\u0060'] := by
    rw [show chars "```" = chars "``" ++ ['\u0060'] from rfl]
    simp
  have htr : trimRight (chars "```" ++ '\n' :: (s ++ '\n' :: chars "```"))
      = chars "```" ++ '\n' :: (s ++ '\n' :: chars "```") := by
    rw [hF2]
    rw [show chars "```" = chars "``" ++ ['\u0060'] from rfl]
    exact trimRight_append_nonws _ (by decide)
  have htl : trimLeft (chars "```" ++ '\n' :: (s ++ '\n' :: chars "```"))
      = chars "```" ++ '\n' :: (s ++ '\n' :: chars "```") := by
    show trimLeft ('\u0060' :: (chars "``" ++ '\n' :: (s ++ '\n' :: chars "```")))
      = '\u0060' :: (chars "``" ++ '\n' :: (s ++ '\n' :: chars "```"))
    exact trimLeft_cons_nonws (by decide)
  have h0 : rustTrim (chars "```" ++ '\n' :: (s ++ '\n' :: chars "```"))
      = chars "```" ++ '\n' :: (s ++ '\n' :: chars "```") := by
    unfold rustTrim
    rw [htr, htl]
  have h1 : stripPrefixL (chars "```json")
        (chars "```" ++ '\n' :: (s ++ '\n' :: chars "```")) = none := by
    rw [show chars "```json" = chars "```" ++ chars "json" from rfl,
      stripPrefixL_append_left]
    show stripPrefixL ('j' :: chars "son") ('\n' :: (s ++ '\n' :: chars "```"))
      = none
    exact stripPrefixL_ne (by decide)
  have h2 : stripPrefixL (chars "```")
        (chars "```" ++ '\n' :: (s ++ '\n' :: chars "```"))
      = some ('\n' :: (s ++ '\n' :: chars "```")) := stripPrefixL_append _ _
  have h3 : '\n' :: (s ++ '\n' :: chars "```")
      = ('\n' :: (s ++ ['\n'])) ++ chars "```" := by simp
  have h4 : stripSuffixL (chars "```") ('\n' :: (s ++ '\n' :: chars "```"))
      = some ('\n' :: (s ++ ['\n'])) := by
    rw [h3]
    exact stripSuffixL_append _ _
  have h5 : rustTrim ('\n' :: (s ++ ['\n'])) = rustTrim s := by
    rw [rustTrim_cons_ws _ (by decide), rustTrim_append_ws _ (by decide)]
  unfold stripFence stripPrefixOr stripSuffixOr
  rw [h0, h1]
  simp only [Option.getD_none]
  rw [h2]
  simp only [Option.getD_some]
  rw [h4]
  simp only [Option.getD_some]
  exact h5

/-- Fence stripping on an unfenced payload — one that neither starts nor
ends with a fence after trimming — is just trimming. -/
theorem stripFence_plain (s : List Char)
    (h1 : stripPrefixL (chars "```") (rustTrim s) = none)
    (h2 : stripSuffixL (chars "```") (rustTrim s) = none) :
    stripFence s = rustTrim s := by
  have h0 : stripPrefixL (chars "```json") (rustTrim s) = none := by
    rw [show chars "```json" = chars "```" ++ chars "json" from rfl]
    exact stripPrefixL_none_append h1
  unfold stripFence stripPrefixOr stripSuffixOr
  rw [h0]
  simp only [Option.getD_none]
  rw [h1]
  simp only [Option.getD_none]
  rw [h2]
  simp only [Option.getD_none]
  exact rustTrim_idem s

/-- C7: the classifier's response parsing rejects the body `not json` with
a parse error, and for every payload that — after trimming — neither
starts nor ends with a triple-backtick fence (as no JSON text does), the
```` ```json ````-fenced and bare-fenced forms parse to exactly the same
verdict as the unfenced payload. -/
theorem claim_C7 (s : List Char)
    (h1 : stripPrefixL (chars "```") (rustTrim s) = none)
    (h2 : stripSuffixL (chars "```") (rustTrim s) = none) :
    parseBranchAnalysisResponse
        (chars "```json" ++ '\n' :: (s ++ '\n' :: chars "```"))
      = parseBranchAnalysisResponse s
    ∧ parseBranchAnalysisResponse
        (chars "```" ++ '\n' :: (s ++ '\n' :: chars "```"))
      = parseBranchAnalysisResponse s
    ∧ parseBranchAnalysisResponse (chars "not json") = none := by
  refine ⟨?_, ?_, by decide⟩
  · unfold parseBranchAnalysisResponse
    rw [stripFence_fenceJson, stripFence_plain s h1 h2]
  · unfold parseBranchAnalysisResponse
    rw [stripFence_fenceBare, stripFence_plain s h1 h2]

/-- Witness for C7 on the spec's example payload
`{"matches":true,"reason":"ok"}`. -/
theorem claim_C7_witness :
    parseBranchAnalysisResponse
        (chars "```json" ++ '\n' ::
          (chars "\x7b\"matches\":true,\"reason\":\"ok\"\x7d" ++ '\n' :: chars "```"))
      = parseBranchAnalysisResponse
          (chars "\x7b\"matches\":true,\"reason\":\"ok\"\x7d")
    ∧ parseBranchAnalysisResponse
        (chars "\x7b\"matches\":true,\"reason\":\"ok\"\x7d")
      = some ⟨true, chars "ok", none⟩ :=
  ⟨(claim_C7 (chars "\x7b\"matches\":true,\"reason\":\"ok\"\x7d")
      (by decide) (by decide)).1,
    by decide⟩
